import Mathlib

/-!
Verification development for the twing-loader webpack loader
(src/index.ts).  The definitions below are a shallow embedding of the
default-exported loader function and of its helper class
PathSupportingArrayLoader, together with models of the external
collaborators the loader drives: the slash path normalizer, the
crypto-js SHA-256 digest, the twing array/chain loaders and the JSON
string serialization used for render mode.  The asynchronous promise
structure of the two branches is embedded separately as a small
cooperative task machine.
-/

/-- Model of the external slash package used by the loader: path-string
normalization replacing every backslash by a forward slash (the
extended-length Windows path special case is irrelevant to the spec and
not modelled). -/
def slash (p : String) : String :=
  String.mk (p.data.map (fun c => if c = '\\' then '/' else c))

namespace Sha256

/-- Truncation to a 32-bit word, written as an explicit remainder. -/
def w32 (x : Nat) : Nat := x % 4294967296

/-- Rotation of a 32-bit word to the right by n positions. -/
def rotr (n x : Nat) : Nat := w32 ((x >>> n) ||| (x <<< (32 - n)))

/-- Logical right shift. -/
def shr (n x : Nat) : Nat := x >>> n

/-- Big sigma-0 function of SHA-256. -/
def bigSigma0 (x : Nat) : Nat := (rotr 2 x) ^^^ (rotr 13 x) ^^^ (rotr 22 x)

/-- Big sigma-1 function of SHA-256. -/
def bigSigma1 (x : Nat) : Nat := (rotr 6 x) ^^^ (rotr 11 x) ^^^ (rotr 25 x)

/-- Small sigma-0 function of SHA-256. -/
def smallSigma0 (x : Nat) : Nat := (rotr 7 x) ^^^ (rotr 18 x) ^^^ (shr 3 x)

/-- Small sigma-1 function of SHA-256. -/
def smallSigma1 (x : Nat) : Nat := (rotr 17 x) ^^^ (rotr 19 x) ^^^ (shr 10 x)

/-- Choice function of SHA-256; complement taken inside 32 bits. -/
def ch (x y z : Nat) : Nat := (x &&& y) ^^^ ((x ^^^ 4294967295) &&& z)

/-- Majority function of SHA-256. -/
def maj (x y z : Nat) : Nat := (x &&& y) ^^^ (x &&& z) ^^^ (y &&& z)

/-- Round constants of SHA-256. -/
def K : List Nat :=
  [1116352408, 1899447441, 3049323471, 3921009573,
   961987163, 1508970993, 2453635748, 2870763221,
   3624381080, 310598401, 607225278, 1426881987,
   1925078388, 2162078206, 2614888103, 3248222580,
   3835390401, 4022224774, 264347078, 604807628,
   770255983, 1249150122, 1555081692, 1996064986,
   2554220882, 2821834349, 2952996808, 3210313671,
   3336571891, 3584528711, 113926993, 338241895,
   666307205, 773529912, 1294757372, 1396182291,
   1695183700, 1986661051, 2177026350, 2456956037,
   2730485921, 2820302411, 3259730800, 3345764771,
   3516065817, 3600352804, 4094571909, 275423344,
   430227734, 506948616, 659060556, 883997877,
   958139571, 1322822218, 1537002063, 1747873779,
   1955562222, 2024104815, 2227730452, 2361852424,
   2428436474, 2756734187, 3204031479, 3329325298]

/-- State of the SHA-256 compression function: eight 32-bit words. -/
structure Digest where
  h0 : Nat
  h1 : Nat
  h2 : Nat
  h3 : Nat
  h4 : Nat
  h5 : Nat
  h6 : Nat
  h7 : Nat
deriving Repr, DecidableEq

/-- Initial hash value of SHA-256. -/
def initialDigest : Digest :=
  ⟨1779033703, 3144134277, 1013904242, 2773480762, 1359893119, 2600822924, 528734635, 1541459225⟩

/-- Big-endian packing of bytes into 32-bit words. -/
def bytesToWords : List Nat → List Nat
  | b0 :: b1 :: b2 :: b3 :: rest => (((b0 * 256 + b1) * 256 + b2) * 256 + b3) :: bytesToWords rest
  | _ => []

/-- Message-schedule extension, appending the given number of words. -/
def extendSchedule : Nat → List Nat → List Nat
  | 0, ws => ws
  | n + 1, ws =>
    let len := ws.length
    let nw := w32 (smallSigma1 (ws.getD (len - 2) 0) + ws.getD (len - 7) 0 +
                   smallSigma0 (ws.getD (len - 15) 0) + ws.getD (len - 16) 0)
    extendSchedule n (ws ++ [nw])

/-- One round of the SHA-256 compression function. -/
def compressRound (st : Digest) (kw : Nat × Nat) : Digest :=
  let t1 := w32 (st.h7 + bigSigma1 st.h4 + ch st.h4 st.h5 st.h6 + kw.1 + kw.2)
  let t2 := w32 (bigSigma0 st.h0 + maj st.h0 st.h1 st.h2)
  ⟨w32 (t1 + t2), st.h0, st.h1, st.h2, w32 (st.h3 + t1), st.h4, st.h5, st.h6⟩

/-- Compression of one 64-byte chunk into the running digest. -/
def compressChunk (d : Digest) (chunk : List Nat) : Digest :=
  let ws := extendSchedule 48 (bytesToWords chunk)
  let st := (K.zip ws).foldl compressRound d
  ⟨w32 (d.h0 + st.h0), w32 (d.h1 + st.h1), w32 (d.h2 + st.h2), w32 (d.h3 + st.h3),
   w32 (d.h4 + st.h4), w32 (d.h5 + st.h5), w32 (d.h6 + st.h6), w32 (d.h7 + st.h7)⟩

/-- Merkle-Damgard padding: the byte 0x80, zero bytes up to 56 mod 64,
then the bit length as an 8-byte big-endian integer. -/
def padMessage (bytes : List Nat) : List Nat :=
  let len := bytes.length
  let zeros := (64 - ((len + 9) % 64)) % 64
  let bitLen := 8 * len
  bytes ++ [128] ++ List.replicate zeros 0 ++
    (List.range 8).map (fun i => (bitLen >>> (8 * (7 - i))) % 256)

/-- Iterated chunk compression, given the number of 64-byte chunks. -/
def processChunks : Nat → List Nat → Digest → Digest
  | 0, _, d => d
  | n + 1, bytes, d => processChunks n (bytes.drop 64) (compressChunk d (bytes.take 64))

/-- The SHA-256 digest of a byte sequence. -/
def sha256Digest (bytes : List Nat) : Digest :=
  let padded := padMessage bytes
  processChunks (padded.length / 64) padded initialDigest

/-- Lower-case hexadecimal digit for a value below 16. -/
def hexDigitChar (n : Nat) : Char :=
  if n < 10 then Char.ofNat (48 + n) else Char.ofNat (87 + n)

/-- Fixed-width (8 characters) hexadecimal rendering of a 32-bit word. -/
def wordToHex (w : Nat) : List Char :=
  (List.range 8).map (fun i => hexDigitChar ((w >>> (4 * (7 - i))) % 16))

/-- Hex encoding of a digest, as produced by the crypto-js hex encoder:
eight 8-character words, 64 characters in total. -/
def digestToHex (d : Digest) : String :=
  String.mk (wordToHex d.h0 ++ wordToHex d.h1 ++ wordToHex d.h2 ++ wordToHex d.h3 ++
             wordToHex d.h4 ++ wordToHex d.h5 ++ wordToHex d.h6 ++ wordToHex d.h7)

end Sha256

/-- Model of hex.stringify applied to crypto-js sha256 of a string: the
string is digested as its UTF-8 bytes and the 256-bit result is printed
as 64 lower-case hexadecimal characters. -/
def sha256Hex (s : String) : String :=
  Sha256.digestToHex (Sha256.sha256Digest (s.toUTF8.toList.map (fun b => b.toNat)))

/-- Embedding of the getTemplateHash closure of src/index.ts (lines
45-47): outside production mode the name itself, in production mode the
hex-encoded SHA-256 digest of the name.  The captured webpack mode is
passed explicitly. -/
def getTemplateHash (mode name : String) : String :=
  if mode ≠ "production" then name else sha256Hex name

/-- Errors flowing through the loader: the twing loader-not-found error
(the only error class the twing loader chain swallows while trying
further loaders) and every other engine or build error, abstracted by a
message. -/
inductive TwingError where
  | loaderNotFound (name : String)
  | engineError (message : String)
deriving Repr, DecidableEq

/-- The twing TwingSource value: template code, a logical name, and a
resolved path (empty by default in the twing constructor). -/
structure TwingSource where
  code : String
  name : String
  resolvedPath : String
deriving Repr, DecidableEq

/-- Interface of a twing loader as consumed by the embedded code:
source lookup and name resolution, both fallible. -/
structure TwingLoader where
  getSourceContext : String → TwingSource → Except TwingError TwingSource
  resolve : String → TwingSource → Except TwingError String

/-- Association-list lookup mirroring the Map the array loader wraps. -/
def lookupTemplate : List (String × String) → String → Option String
  | [], _ => none
  | (k, v) :: rest, name => if k = name then some v else lookupTemplate rest name

/-- Model of the external twing TwingLoaderArray over its template map:
a stored entry is returned as a TwingSource whose name is the requested
name and whose resolved path is left empty; a missing entry raises the
loader-not-found error.  Resolution returns the requested name exactly
when an entry exists. -/
def twingLoaderArray (templates : List (String × String)) : TwingLoader where
  getSourceContext := fun name _ =>
    match lookupTemplate templates name with
    | some code => .ok ⟨code, name, ""⟩
    | none => .error (.loaderNotFound name)
  resolve := fun name _ =>
    match lookupTemplate templates name with
    | some _ => .ok name
    | none => .error (.loaderNotFound name)

/-- Embedding of PathSupportingArrayLoader (src/index.ts lines 35-40):
it defers to the TwingLoaderArray lookup and rewraps a successful
result as a new TwingSource with the resolved path set to the requested
name; failures of the underlying lookup propagate unchanged, and the
inherited resolve is untouched. -/
def pathSupportingArrayLoader (templates : List (String × String)) : TwingLoader where
  getSourceContext := fun name f =>
    match (twingLoaderArray templates).getSourceContext name f with
    | .ok source => .ok ⟨source.code, source.name, name⟩
    | .error e => .error e
  resolve := (twingLoaderArray templates).resolve

/-- Modelled from the spec: the external twing TwingLoaderChain is not
part of this repository; following sections 3 and 4.2 of the spec,
lookup tries each loader in order, the first successful match wins, and
the outcome of the final loader (success or failure) is propagated
unchanged. -/
def chainLookup {α : Type} : List (String → TwingSource → Except TwingError α) →
    String → TwingSource → Except TwingError α
  | [], name, _ => .error (.loaderNotFound name)
  | [l], name, f => l name f
  | l :: ls, name, f =>
    match l name f with
    | .ok v => .ok v
    | .error _ => chainLookup ls name f

/-- Modelled from the spec: the twing TwingLoaderChain value built from
an ordered list of loaders, applying the first-match-wins lookup to
both source lookup and name resolution. -/
def twingLoaderChain (loaders : List TwingLoader) : TwingLoader where
  getSourceContext := chainLookup (loaders.map (fun l => l.getSourceContext))
  resolve := chainLookup (loaders.map (fun l => l.resolve))

/-- Render context handed to the engine: a mapping of variable names to
values (values abstracted as strings). -/
def RenderContext : Type := List (String × String)

/-- A notification on the template event stream: the requested name and
the requesting source. -/
def TemplateNotification : Type := String × TwingSource

/-- Model of the shared twing Environment as the loader consumes it.
The engine internals are external collaborators: tokenize, parse,
compile and render are black-box functions over opaque token-stream and
node-module types.  getTemplateNames stands for the repository Visitor
(imported from ./visitor, not part of the given sources); only its
result, the discovered dependency name list, matters here.  render also
yields the list of template notifications the engine emitted while
rendering. -/
structure TwingEnvironmentModel (τ μ : Type) where
  tokenize : TwingSource → Except TwingError τ
  parse : τ → Except TwingError μ
  compile : μ → String
  getTemplateNames : μ → Except TwingError (List String)
  render : String → RenderContext → List TemplateNotification × Except TwingError String

/-- Mutable state of the shared Environment touched by the loader: the
active loader and the number of subscribed template-event listeners. -/
structure EnvState where
  loader : TwingLoader
  templateListenerCount : Nat

/-- Result of one loader invocation: the callback outcome (an error, or
the generated module text), the paths reported through addDependency,
and the final Environment state. -/
structure LoaderOutcome where
  callback : Except TwingError String
  dependencies : List String
  env : EnvState

/-- Part (a) of the precompile module (src/index.ts line 87): the
require of the configured environment module path. -/
def envRequirePart (environmentModulePath : String) : String :=
  "const env = require(\x27" ++ slash environmentModulePath ++ "\x27);"

/-- Part (b) of the precompile module (src/index.ts lines 106-116): the
isolated-scope evaluation of the compiled code fragment, reproduced
with the whitespace of the source template literal. -/
def templatesModulePart (precompiledTemplate : String) : String :=
  "\n                    const templatesModule = (() => \x7b\n                    const module = \x7b\n                        exports: undefined\n                    \x7d;\n\n                    " ++
    precompiledTemplate ++
    "\n\n                    return module.exports;\n                    \x7d)();\n                "

/-- One dependency require statement (src/index.ts line 120). -/
def requirePart (name : String) : String :=
  "require(\x27" ++ name ++ "\x27);"

/-- The registration statement (src/index.ts line 124). -/
def registerPart (key : String) : String :=
  "env.registerTemplatesModule(templatesModule, \x27" ++ key ++ "\x27);"

/-- The exported render function (src/index.ts lines 133-142),
reproduced with the whitespace of the source template literal. -/
def renderTemplatePart (key : String) : String :=
  "\n                    const renderTemplate = (context = \x7b\x7d) => \x7b\n                      const name = \x27" ++
    key ++
    "\x27;\n                      env.emit(\x27template\x27, name);\n                      const template = env.loadedTemplates.get(name);\n                      return template.render(context);\n                    \x7d;\n\n                    module.exports = renderTemplate;\n                "

/-- The parts array of the precompile branch, built by the same pushes
the source performs: the environment require, the compiled-template
evaluation, one require per discovered name (slashed, in discovery
order), the registration call and the exported render function. -/
def precompileParts (environmentModulePath precompiledTemplate key : String)
    (foundTemplateNames : List String) : List String :=
  let parts := [envRequirePart environmentModulePath]
  let parts := parts ++ [templatesModulePart precompiledTemplate]
  let parts := foundTemplateNames.foldl (fun acc n => acc ++ [requirePart (slash n)]) parts
  let parts := parts ++ [registerPart key]
  parts ++ [renderTemplatePart key]

/-- The TwingSource handed to tokenize in the precompile branch
(src/index.ts lines 90-91): the in-memory source under the derived key
as its name. -/
def sourceContextFor (mode resourcePath source : String) : TwingSource :=
  ⟨source, getTemplateHash mode resourcePath, ""⟩

/-- Embedding of the precompile branch (src/index.ts lines 76-152).
The tokenize, parse and visitor stages each abort with a callback error
on failure; on success the module text is the newline join of the parts
array.  The Environment state is untouched by this branch. -/
def precompileBranch {τ μ : Type} (env : TwingEnvironmentModel τ μ)
    (mode resourcePath environmentModulePath source : String) (st : EnvState) : LoaderOutcome :=
  let key := getTemplateHash mode resourcePath
  let sourceContext := sourceContextFor mode resourcePath source
  match env.tokenize sourceContext with
  | .error e => ⟨.error e, [], st⟩
  | .ok tokenStream =>
    match env.parse tokenStream with
    | .error e => ⟨.error e, [], st⟩
    | .ok nodeModule =>
      match env.getTemplateNames nodeModule with
      | .error e => ⟨.error e, [], st⟩
      | .ok foundTemplateNames =>
        let precompiledTemplate := env.compile nodeModule
        ⟨.ok (String.intercalate ("\n")
            (precompileParts environmentModulePath precompiledTemplate key foundTemplateNames)),
          [], st⟩

/-- JSON escape of one character, as JSON.stringify performs it on the
characters of a string: quote and backslash are escaped, the five
control characters with short escapes use them, the remaining control
characters below 32 become lower-case uXXXX escapes, and every other
character is emitted verbatim. -/
def jsonEscapeChar (c : Char) : List Char :=
  if c = '"' then ['\\', '"']
  else if c = '\\' then ['\\', '\\']
  else if c = '\x08' then ['\\', 'b']
  else if c = '\x09' then ['\\', 't']
  else if c = '\x0a' then ['\\', 'n']
  else if c = '\x0c' then ['\\', 'f']
  else if c = '\x0d' then ['\\', 'r']
  else if c.toNat < 32 then
    ['\\', 'u', '0', '0', Sha256.hexDigitChar (c.toNat / 16), Sha256.hexDigitChar (c.toNat % 16)]
  else [c]

/-- Model of JSON.stringify applied to a string value: the escaped
characters between double quotes. -/
def jsonStringifyString (s : String) : String :=
  String.mk ('"' :: s.data.flatMap jsonEscapeChar ++ ['"'])

/-- The sole statement of the render-mode module (src/index.ts line
181): the rendered string exported through its JSON serialization. -/
def renderModuleText (rendered : String) : String :=
  "module.exports = " ++ jsonStringifyString rendered ++ ";"

/-- First failure among the addDependency obligations, mirroring the
rejection of the joined promise over them. -/
def firstObligationError : List (Except TwingError String) → Option TwingError
  | [] => none
  | .error e :: _ => some e
  | .ok _ :: rest => firstObligationError rest

/-- Paths of the obligations that resolved; each such resolution calls
addDependency with its path. -/
def resolvedObligationPaths (obligations : List (Except TwingError String)) : List String :=
  obligations.filterMap (fun r => match r with | .ok p => some p | .error _ => none)

/-- The override chain installed by the render branch (src/index.ts
lines 157-162): the in-memory source for the current resource path in
front of the previously configured loader. -/
def renderChainFor (resourcePath source : String) (fallback : TwingLoader) : TwingLoader :=
  twingLoaderChain [pathSupportingArrayLoader [(resourcePath, source)], fallback]

/-- Embedding of the render branch (src/index.ts lines 153-191).  The
Environment loader is replaced by the chain putting the in-memory
source in front of the previously configured loader, a template-event
listener is subscribed, and the template is rendered.  Each template
notification spawns an obligation resolving the name through the new
loader and reporting the path through addDependency; the resolved paths
are the dependencies reported.  The callback succeeds with the exported
rendered string only when rendering and every obligation succeeded; a
render failure or a first failing obligation is delivered as the
callback error.  The promise interleaving of these steps is embedded
separately by the task machine below; this function records outcome,
reported dependencies and final Environment state. -/
def renderBranch {τ μ : Type} (env : TwingEnvironmentModel τ μ)
    (resourcePath source : String) (renderContext : RenderContext) (st : EnvState) : LoaderOutcome :=
  let newLoader := renderChainFor resourcePath source st.loader
  let st1 : EnvState := ⟨newLoader, st.templateListenerCount + 1⟩
  let rendered := env.render resourcePath renderContext
  let obligations := rendered.1.map (fun nf => newLoader.resolve nf.1 nf.2)
  let deps := resolvedObligationPaths obligations
  match rendered.2 with
  | .error e => ⟨.error e, deps, st1⟩
  | .ok renderedTemplate =>
    match firstObligationError obligations with
    | some e => ⟨.error e, deps, st1⟩
    | none => ⟨.ok (renderModuleText renderedTemplate), deps, st1⟩

/-- Embedding of the default-exported loader function (src/index.ts
lines 42-192).  Options are modelled as already validated (the schema
admits exactly the environment module path and the optional render
context).  The environment module path is reported as a dependency
before either branch runs, and the branch is selected by whether the
render context option is undefined. -/
def loaderMain {τ μ : Type} (env : TwingEnvironmentModel τ μ)
    (mode resourcePath environmentModulePath : String)
    (renderContext : Option RenderContext) (source : String) (st : EnvState) : LoaderOutcome :=
  let envDep := slash environmentModulePath
  match renderContext with
  | none =>
    let r := precompileBranch env mode resourcePath environmentModulePath source st
    ⟨r.callback, envDep :: r.dependencies, r.env⟩
  | some ctx =>
    let r := renderBranch env resourcePath source ctx st
    ⟨r.callback, envDep :: r.dependencies, r.env⟩

/-- Hexadecimal value of a character, inverse of the digit encoding on
the range below 16. -/
def hexCharVal (c : Char) : Nat :=
  if 48 ≤ c.toNat ∧ c.toNat ≤ 57 then c.toNat - 48
  else if 97 ≤ c.toNat ∧ c.toNat ≤ 102 then c.toNat - 87
  else 0

/-- Recognizer for a lower-case hexadecimal digit character. -/
def isHexDigitChar (c : Char) : Bool :=
  (48 ≤ c.toNat && c.toNat ≤ 57) || (97 ≤ c.toNat && c.toNat ≤ 102)

/-- Modelled from the spec: evaluation of a JavaScript double-quoted
string literal body up to its closing quote, the reading a consumer of
the emitted render-mode module performs.  Unescaped characters stand
for themselves; the JSON escapes (quote, backslash, the five short
control escapes and uXXXX) decode to the escaped character; a stray
backslash escape, a premature quote or a missing closing quote is a
parse failure. -/
def decodeLiteralChars : List Char → Option (List Char)
  | [] => none
  | c :: rest =>
    if c = '"' then (if rest.isEmpty then some [] else none)
    else if c = '\\' then
      match rest with
      | [] => none
      | d :: rest2 =>
        if d = '"' then (decodeLiteralChars rest2).map (fun l => '"' :: l)
        else if d = '\\' then (decodeLiteralChars rest2).map (fun l => '\\' :: l)
        else if d = 'b' then (decodeLiteralChars rest2).map (fun l => '\x08' :: l)
        else if d = 't' then (decodeLiteralChars rest2).map (fun l => '\x09' :: l)
        else if d = 'n' then (decodeLiteralChars rest2).map (fun l => '\x0a' :: l)
        else if d = 'f' then (decodeLiteralChars rest2).map (fun l => '\x0c' :: l)
        else if d = 'r' then (decodeLiteralChars rest2).map (fun l => '\x0d' :: l)
        else if d = 'u' then
          match rest2 with
          | h1 :: h2 :: h3 :: h4 :: rest3 =>
            if isHexDigitChar h1 && isHexDigitChar h2 && isHexDigitChar h3 && isHexDigitChar h4 then
              (decodeLiteralChars rest3).map
                (fun l => Char.ofNat
                  (((hexCharVal h1 * 16 + hexCharVal h2) * 16 + hexCharVal h3) * 16 + hexCharVal h4) :: l)
            else none
          | _ => none
        else none
    else (decodeLiteralChars rest).map (fun l => c :: l)

/-- Modelled from the spec: evaluation of a complete JavaScript
double-quoted string literal to the string it denotes. -/
def decodeStringLiteral (s : String) : Option String :=
  match s.data with
  | '"' :: rest => (decodeLiteralChars rest).map String.mk
  | _ => none

/-- One action of a cooperative task: emit an observable event, or
suspend until every task in a given id set has run to completion.  The
waitAll action embeds awaiting a joined promise (Promise.all over a
task array) or chaining on a single promise. -/
inductive PAction (ε : Type) where
  | emit (e : ε)
  | waitAll (ids : List Nat)
deriving DecidableEq

/-- A cooperative task: an identifier and the list of remaining actions. -/
structure PTask (ε : Type) where
  id : Nat
  prog : List (PAction ε)
deriving DecidableEq

/-- Single-threaded cooperative small step over a task list, modelling
the promise scheduling of section 5 of the spec: some task whose next
action is enabled performs it.  An emit is always enabled and appends
its event to the trace; a waitAll is enabled only when every task whose
id lies in its set has an empty program. -/
inductive PStep {ε : Type} : List (PTask ε) → Option ε → List (PTask ε) → Prop where
  | emit (ts : List (PTask ε)) (i : Fin ts.length) (e : ε) (rest : List (PAction ε)) :
      (ts.get i).prog = PAction.emit e :: rest →
      PStep ts (some e) (ts.set i.val ⟨(ts.get i).id, rest⟩)
  | wait (ts : List (PTask ε)) (i : Fin ts.length) (ids : List Nat) (rest : List (PAction ε)) :
      (ts.get i).prog = PAction.waitAll ids :: rest →
      (∀ t ∈ ts, t.id ∈ ids → t.prog = []) →
      PStep ts none (ts.set i.val ⟨(ts.get i).id, rest⟩)

/-- Reachability of a machine configuration together with the trace of
events emitted so far, starting from the initial task list. -/
inductive Reach {ε : Type} (ts0 : List (PTask ε)) : List (PTask ε) → List ε → Prop where
  | refl : Reach ts0 ts0 []
  | stepEmit {ts : List (PTask ε)} {tr : List ε} {ts' : List (PTask ε)} {e : ε} :
      Reach ts0 ts tr → PStep ts (some e) ts' → Reach ts0 ts' (tr ++ [e])
  | stepTau {ts : List (PTask ε)} {tr : List ε} {ts' : List (PTask ε)} :
      Reach ts0 ts tr → PStep ts none ts' → Reach ts0 ts' tr

/-- Event x precedes event y throughout a trace: every prefix of the
trace containing y already contains x. -/
def Precedes {ε : Type} (x y : ε) (tr : List ε) : Prop :=
  ∀ n, y ∈ tr.take n → x ∈ tr.take n

/-- A joined-task system: a joiner that emits its pre events, awaits
every worker, then emits its post events, next to workers that emit
their own event lists.  Both loader branches have this shape. -/
def joinTasks {ε : Type} (joinerId : Nat) (pre post : List ε)
    (workers : List (Nat × List ε)) : List (PTask ε) :=
  ⟨joinerId, pre.map PAction.emit ++
      PAction.waitAll (workers.map (fun w => w.1)) :: post.map PAction.emit⟩ ::
    workers.map (fun w => ⟨w.1, w.2.map PAction.emit⟩)

/-- Invariant relating a reachable configuration to the initial tasks:
lengths and ids are preserved, each task program is what remains of its
initial program, and every event of the consumed part has been emitted
into the trace. -/
def TraceOK {ε : Type} (ts0 ts : List (PTask ε)) (tr : List ε) : Prop :=
  ts.length = ts0.length ∧
  ∀ i (h1 : i < ts.length) (h2 : i < ts0.length),
    (ts.get ⟨i, h1⟩).id = (ts0.get ⟨i, h2⟩).id ∧
    ∃ dropped, (ts0.get ⟨i, h2⟩).prog = dropped ++ (ts.get ⟨i, h1⟩).prog ∧
      ∀ x, PAction.emit x ∈ dropped → x ∈ tr

/-- Events of the render branch as scheduled by its promises: the
outer render promise resolving, the resolve step and the addDependency
step of the i-th obligation spawned by the template notification
handler, and the success callback. -/
inductive RenderEv where
  | renderResolved
  | resolveDone (i : Nat)
  | depAdded (i : Nat)
  | callbackSuccess
deriving DecidableEq

/-- Task system of the render branch (src/index.ts lines 165-186) with
k collected obligations: the main task resolves the render, awaits
every obligation (the explicit join over the addDependency promises)
and only then invokes the success callback; obligation i resolves its
name and then reports its dependency.  Obligation tasks are schedulable
from the start, an over-approximation of the schedules the event loop
admits. -/
def renderTasks (k : Nat) : List (PTask RenderEv) :=
  joinTasks 0 [RenderEv.renderResolved] [RenderEv.callbackSuccess]
    ((List.range k).map (fun i => (i + 1, [RenderEv.resolveDone i, RenderEv.depAdded i])))

/-- Events of the precompile branch as scheduled by its promise chain:
the synchronous pushes and parse, the visitor completing with its name
list, then compilation, emission of the remaining parts and the
callback. -/
inductive PrecompileEv where
  | envRequirePushed
  | parsed
  | visitorDone
  | compiled
  | partsEmitted
  | callbackCalled
deriving DecidableEq

/-- Task system of the precompile branch (src/index.ts lines 84-151):
the main task pushes the environment require and parses synchronously,
awaits the visitor promise (the then-continuation on getTemplateNames)
and only inside that continuation compiles, emits the remaining parts
and calls the callback; the visitor task produces the name list. -/
def precompileTasks : List (PTask PrecompileEv) :=
  joinTasks 0 [PrecompileEv.envRequirePushed, PrecompileEv.parsed]
    [PrecompileEv.compiled, PrecompileEv.partsEmitted, PrecompileEv.callbackCalled]
    [(1, [PrecompileEv.visitorDone])]

/-- Consumption of an expected character-list prefix. -/
def dropPrefixChars : List Char → List Char → Option (List Char)
  | [], l => some l
  | _ :: _, [] => none
  | p :: ps, c :: cs => if p = c then dropPrefixChars ps cs else none

/-- The characters before the next single quote, if one occurs. -/
def takeBeforeQuote : List Char → Option (List Char)
  | [] => none
  | c :: cs => if c = '\x27' then some [] else (takeBeforeQuote cs).map (fun l => c :: l)

/-- Reading the registry key back out of an emitted registration
statement: the single-quoted second argument. -/
def extractRegisterKey (s : String) : Option String :=
  match dropPrefixChars ("env.registerTemplatesModule(templatesModule, \x27").data s.data with
  | some rest => (takeBeforeQuote rest).map String.mk
  | none => none

/-- Reading the lookup name back out of an emitted render function: the
single-quoted name constant it binds. -/
def extractRenderLookupName (s : String) : Option String :=
  match dropPrefixChars ("\n                    const renderTemplate = (context = \x7b\x7d) => \x7b\n                      const name = \x27").data s.data with
  | some rest => (takeBeforeQuote rest).map String.mk
  | none => none

/-- A loader with no templates, used as a fixture. -/
def nullLoader : TwingLoader where
  getSourceContext := fun name _ => .error (.loaderNotFound name)
  resolve := fun name _ => .error (.loaderNotFound name)

/-- Initial environment state fixture. -/
def initState : EnvState := ⟨nullLoader, 0⟩

/-- A stub environment whose stages all succeed, used as a fixture for
concrete runs: the visitor discovers the given names, rendering yields
the given string and emits the given notifications. -/
def stubEnv (names : List String) (rendered : String)
    (notifs : List TemplateNotification) : TwingEnvironmentModel Unit Unit where
  tokenize := fun _ => .ok ()
  parse := fun _ => .ok ()
  compile := fun _ => "COMPILED"
  getTemplateNames := fun _ => .ok names
  render := fun _ _ => (notifs, .ok rendered)

/-- A stub environment whose tokenizer rejects its input, as it does on
an unterminated tag construct. -/
def failTokenizeEnv : TwingEnvironmentModel Unit Unit where
  tokenize := fun _ => .error (.engineError "unterminated tag")
  parse := fun _ => .ok ()
  compile := fun _ => ""
  getTemplateNames := fun _ => .ok []
  render := fun _ _ => ([], .ok "")

/-- Helper: a suffix of a cons is the whole cons or a suffix of the tail. -/
theorem suffix_cons_elim {α : Type} {l m : List α} {a : α} (h : l <:+ a :: m) :
    l = a :: m ∨ l <:+ m := by
  obtain ⟨d, hd⟩ := h
  cases d with
  | nil => exact Or.inl (by simpa using hd)
  | cons b d' =>
    right
    cases hd
    exact ⟨d', rfl⟩

/-- Helper: every prefix of a reachable trace is itself a reachable trace. -/
theorem reach_take {ε : Type} {ts0 ts : List (PTask ε)} {tr : List ε}
    (h : Reach ts0 ts tr) (n : Nat) : ∃ ts', Reach ts0 ts' (tr.take n) := by
  induction h with
  | refl => exact ⟨ts0, by simpa using Reach.refl⟩
  | stepEmit hr hs ih =>
    rename_i ts1 tr1 ts1' e
    by_cases hn : n ≤ tr1.length
    · rw [List.take_append_of_le_length hn]
      exact ih
    · rw [List.take_of_length_le (by simp; omega)]
      exact ⟨ts1', Reach.stepEmit hr hs⟩
  | stepTau hr hs ih => exact ih

theorem traceOK_refl {ε : Type} (ts0 : List (PTask ε)) : TraceOK ts0 ts0 [] :=
  ⟨rfl, fun i h1 _ => ⟨rfl, [], rfl, by simp⟩⟩

theorem traceOK_mono {ε : Type} {ts0 ts : List (PTask ε)} {tr tr' : List ε}
    (h : TraceOK ts0 ts tr) (hsub : ∀ x, x ∈ tr → x ∈ tr') : TraceOK ts0 ts tr' := by
  obtain ⟨hlen, hpt⟩ := h
  refine ⟨hlen, fun i h1 h2 => ?_⟩
  obtain ⟨hid, dropped, hdr, hmem⟩ := hpt i h1 h2
  exact ⟨hid, dropped, hdr, fun x hx => hsub x (hmem x hx)⟩

theorem traceOK_step {ε : Type} {ts0 ts ts' : List (PTask ε)} {tr : List ε} {oe : Option ε}
    (h : TraceOK ts0 ts tr) (hs : PStep ts oe ts') :
    TraceOK ts0 ts' (tr ++ oe.toList) := by
  obtain ⟨hlen, hpt⟩ := h
  cases hs with
  | emit i e rest heq =>
    refine ⟨by simpa using hlen, fun j h1 h2 => ?_⟩
    have h1' : j < ts.length := by simpa using h1
    obtain ⟨hid, dropped, hdr, hmem⟩ := hpt j h1' h2
    by_cases hij : i.val = j
    · subst hij
      have hget : (ts.set i.val ⟨(ts.get i).id, rest⟩).get ⟨i.val, h1⟩ =
          ⟨(ts.get i).id, rest⟩ := by
        simp [List.get_eq_getElem]
      rw [hget]
      refine ⟨hid, dropped ++ [PAction.emit e], ?_, ?_⟩
      · rw [hdr]
        have : (ts.get ⟨i.val, h1'⟩).prog = PAction.emit e :: rest := by
          convert heq using 2
        rw [this]
        simp
      · intro x hx
        rcases List.mem_append.mp hx with hx1 | hx2
        · exact List.mem_append_left _ (hmem x hx1)
        · simp at hx2
          subst hx2
          simp
    · have hget : (ts.set i.val ⟨(ts.get i).id, rest⟩).get ⟨j, h1⟩ = ts.get ⟨j, h1'⟩ := by
        simp [List.get_eq_getElem, List.getElem_set_ne hij]
      rw [hget]
      exact ⟨hid, dropped, hdr, fun x hx => List.mem_append_left _ (hmem x hx)⟩
  | wait i ids rest heq hcond =>
    refine ⟨by simpa using hlen, fun j h1 h2 => ?_⟩
    have h1' : j < ts.length := by simpa using h1
    obtain ⟨hid, dropped, hdr, hmem⟩ := hpt j h1' h2
    by_cases hij : i.val = j
    · subst hij
      have hget : (ts.set i.val ⟨(ts.get i).id, rest⟩).get ⟨i.val, h1⟩ =
          ⟨(ts.get i).id, rest⟩ := by
        simp [List.get_eq_getElem]
      rw [hget]
      refine ⟨hid, dropped ++ [PAction.waitAll ids], ?_, ?_⟩
      · rw [hdr]
        have : (ts.get ⟨i.val, h1'⟩).prog = PAction.waitAll ids :: rest := by
          convert heq using 2
        rw [this]
        simp
      · intro x hx
        rcases List.mem_append.mp hx with hx1 | hx2
        · exact List.mem_append_left _ (hmem x hx1)
        · simp at hx2
    · have hget : (ts.set i.val ⟨(ts.get i).id, rest⟩).get ⟨j, h1⟩ = ts.get ⟨j, h1'⟩ := by
        simp [List.get_eq_getElem, List.getElem_set_ne hij]
      rw [hget]
      exact ⟨hid, dropped, hdr, fun x hx => List.mem_append_left _ (hmem x hx)⟩

theorem traceOK_reach {ε : Type} {ts0 ts : List (PTask ε)} {tr : List ε}
    (h : Reach ts0 ts tr) : TraceOK ts0 ts tr := by
  induction h with
  | refl => exact traceOK_refl ts0
  | stepEmit hr hs ih => simpa using traceOK_step ih hs
  | stepTau hr hs ih => simpa using traceOK_step ih hs

theorem get_set_same {α : Type} (l : List α) (i : Nat) (a : α)
    (h : i < (l.set i a).length) : (l.set i a).get ⟨i, h⟩ = a := by
  simp [List.get_eq_getElem]

theorem get_set_other {α : Type} (l : List α) (i j : Nat) (hij : i ≠ j) (a : α)
    (h : j < (l.set i a).length) (h' : j < l.length) :
    (l.set i a).get ⟨j, h⟩ = l.get ⟨j, h'⟩ := by
  simp [List.get_eq_getElem, List.getElem_set_ne hij]

theorem waitAll_not_mem_map_emit {ε : Type} (es : List ε) (ids : List Nat) :
    PAction.waitAll ids ∉ es.map PAction.emit := by
  simp

theorem joinTasks_length {ε : Type} (joinerId : Nat) (pre post : List ε)
    (workers : List (Nat × List ε)) :
    (joinTasks joinerId pre post workers).length = workers.length + 1 := by
  simp [joinTasks]

theorem joinTasks_get_zero {ε : Type} (joinerId : Nat) (pre post : List ε)
    (workers : List (Nat × List ε)) (h0 : 0 < (joinTasks joinerId pre post workers).length) :
    (joinTasks joinerId pre post workers).get ⟨0, h0⟩ =
      ⟨joinerId, pre.map PAction.emit ++
        PAction.waitAll (workers.map (fun w => w.1)) :: post.map PAction.emit⟩ := rfl

theorem joinTasks_get_succ {ε : Type} (joinerId : Nat) (pre post : List ε)
    (workers : List (Nat × List ε)) (i : Nat)
    (h : i + 1 < (joinTasks joinerId pre post workers).length) (hw : i < workers.length) :
    (joinTasks joinerId pre post workers).get ⟨i + 1, h⟩ =
      ⟨(workers.get ⟨i, hw⟩).1, (workers.get ⟨i, hw⟩).2.map PAction.emit⟩ := by
  simp [joinTasks, List.get_eq_getElem]

theorem get_set_cases {α : Type} (l : List α) (i j : Nat) (a : α)
    (h : j < (l.set i a).length) (h' : j < l.length) :
    (l.set i a).get ⟨j, h⟩ = if i = j then a else l.get ⟨j, h'⟩ := by
  by_cases hij : i = j
  · subst hij
    simp [List.get_eq_getElem, List.getElem_set_self]
  · simp [List.get_eq_getElem, List.getElem_set_ne hij, hij]

theorem join_tails_empty_step {ε : Type} {joinerId : Nat} {pre post : List ε}
    {workers : List (Nat × List ε)} {ts ts' : List (PTask ε)} {tr : List ε} {oe : Option ε}
    (hTO : TraceOK (joinTasks joinerId pre post workers) ts tr)
    (hIH : ∀ (h0 : 0 < ts.length), (ts.get ⟨0, h0⟩).prog <:+ post.map PAction.emit →
      ∀ i (hi : i < ts.length), 0 < i → (ts.get ⟨i, hi⟩).prog = [])
    (hs : PStep ts oe ts') :
    ∀ (h0 : 0 < ts'.length), (ts'.get ⟨0, h0⟩).prog <:+ post.map PAction.emit →
      ∀ i (hi : i < ts'.length), 0 < i → (ts'.get ⟨i, hi⟩).prog = [] := by
  obtain ⟨hlen, hpt⟩ := hTO
  have hjtlen := joinTasks_length joinerId pre post workers
  cases hs with
  | emit i e rest heq =>
    intro h0' hsuf' j hj hjpos
    have h0ts : 0 < ts.length := i.pos
    have hj' : j < ts.length := by simpa using hj
    have h0'' : 0 < (ts.set i.val ⟨(ts.get i).id, rest⟩).length := h0'
    rcases Nat.eq_zero_or_pos i.val with hi0 | hipos
    · -- the joiner performed an emit
      have hieq : i = ⟨0, h0ts⟩ := Fin.ext hi0
      have heq0 : (ts.get ⟨0, h0ts⟩).prog = PAction.emit e :: rest := by
        rw [← hieq]; exact heq
      have hnew0 : (ts.set i.val ⟨(ts.get i).id, rest⟩).get ⟨0, h0'⟩ = ⟨(ts.get i).id, rest⟩ := by
        rw [get_set_cases _ _ _ _ h0' h0ts, if_pos hi0]
      have hrest : rest <:+ post.map PAction.emit := by
        rw [hnew0] at hsuf'; exact hsuf'
      have h02 : 0 < (joinTasks joinerId pre post workers).length := by omega
      obtain ⟨hid, dropped, hdr, hmem⟩ := hpt 0 h0ts h02
      rw [joinTasks_get_zero, heq0] at hdr
      have hsuffix1 : PAction.emit e :: rest <:+
          pre.map PAction.emit ++ PAction.waitAll (workers.map (fun w => w.1)) ::
            post.map PAction.emit := ⟨dropped, hdr.symm⟩
      have hsuffix2 : PAction.waitAll (workers.map (fun w => w.1)) :: post.map PAction.emit <:+
          pre.map PAction.emit ++ PAction.waitAll (workers.map (fun w => w.1)) ::
            post.map PAction.emit := List.suffix_append _ _
      have hold : PAction.emit e :: rest <:+ post.map PAction.emit := by
        rcases List.suffix_or_suffix_of_suffix hsuffix1 hsuffix2 with hA | hB
        · rcases suffix_cons_elim hA with heqq | hok
          · simp at heqq
          · exact hok
        · rcases suffix_cons_elim hB with heqq | hsufrest
          · simp at heqq
          · exfalso
            have hmem1 : PAction.waitAll (workers.map (fun w => w.1)) ∈ rest := by
              obtain ⟨d, hd⟩ := hsufrest
              rw [← hd]
              exact List.mem_append_right _ (List.mem_cons_self _ _)
            exact waitAll_not_mem_map_emit post _ (hrest.subset hmem1)
      have htails := hIH h0ts (by rw [heq0]; exact hold) j hj' hjpos
      rw [get_set_cases _ _ _ _ hj hj', if_neg (by omega)]
      exact htails
    · -- a worker performed an emit; the joiner cannot already be past its join
      have h00 : (ts.set i.val ⟨(ts.get i).id, rest⟩).get ⟨0, h0'⟩ = ts.get ⟨0, h0ts⟩ := by
        rw [get_set_cases _ _ _ _ h0' h0ts, if_neg (by omega)]
      rw [h00] at hsuf'
      have htails := hIH h0ts hsuf' i.val i.isLt hipos
      exfalso
      have : (ts.get i).prog = [] := by
        have hieq : i = ⟨i.val, i.isLt⟩ := Fin.ext rfl
        rw [hieq] at heq ⊢
        exact htails
      rw [this] at heq
      exact List.noConfusion heq
  | wait i ids rest heq hcond =>
    intro h0' hsuf' j hj hjpos
    have h0ts : 0 < ts.length := i.pos
    have hj' : j < ts.length := by simpa using hj
    rcases Nat.eq_zero_or_pos i.val with hi0 | hipos
    · -- the joiner consumed its waitAll; every worker is finished
      have hieq : i = ⟨0, h0ts⟩ := Fin.ext hi0
      have heq0 : (ts.get ⟨0, h0ts⟩).prog = PAction.waitAll ids :: rest := by
        rw [← hieq]; exact heq
      have h02 : 0 < (joinTasks joinerId pre post workers).length := by omega
      obtain ⟨hid, dropped, hdr, hmem⟩ := hpt 0 h0ts h02
      rw [joinTasks_get_zero, heq0] at hdr
      dsimp only at hdr
      have hwmem : PAction.waitAll ids ∈
          pre.map PAction.emit ++ PAction.waitAll (workers.map (fun w => w.1)) ::
            post.map PAction.emit := by
        rw [hdr]
        exact List.mem_append_right _ (List.mem_cons_self _ _)
      have hids : ids = workers.map (fun w => w.1) := by
        rcases List.mem_append.mp hwmem with hin | hin
        · exact absurd hin (waitAll_not_mem_map_emit pre ids)
        · rcases List.mem_cons.mp hin with hin1 | hin2
          · exact (PAction.waitAll.injEq _ _ ▸ hin1 : _)
          · exact absurd hin2 (waitAll_not_mem_map_emit post ids)
      obtain ⟨j', rfl⟩ : ∃ j', j = j' + 1 := ⟨j - 1, by omega⟩
      have hj2 : j' + 1 < (joinTasks joinerId pre post workers).length := by omega
      have hwlt : j' < workers.length := by omega
      obtain ⟨hid2, dropped2, hdr2, hmem2⟩ := hpt (j' + 1) hj' hj2
      rw [joinTasks_get_succ _ _ _ _ _ hj2 hwlt] at hid2
      have hidin : (ts.get ⟨j' + 1, hj'⟩).id ∈ ids := by
        rw [hids, hid2]
        exact List.mem_map_of_mem _ (List.get_mem workers j' hwlt)
      have hempty := hcond _ (List.get_mem ts (j' + 1) hj') hidin
      rw [get_set_cases _ _ _ _ hj hj', if_neg (by omega)]
      exact hempty
    · -- a worker cannot hold a waitAll action
      exfalso
      obtain ⟨j', hjv⟩ : ∃ j', i.val = j' + 1 := ⟨i.val - 1, by omega⟩
      have hj2 : j' + 1 < (joinTasks joinerId pre post workers).length := by omega
      have hwlt : j' < workers.length := by omega
      have hilt : j' + 1 < ts.length := by omega
      obtain ⟨hid2, dropped2, hdr2, hmem2⟩ := hpt (j' + 1) hilt hj2
      rw [joinTasks_get_succ _ _ _ _ _ hj2 hwlt] at hdr2
      dsimp only at hdr2
      have hieq : i = ⟨j' + 1, hilt⟩ := Fin.ext hjv
      rw [hieq] at heq
      rw [heq] at hdr2
      have : PAction.waitAll ids ∈ (workers.get ⟨j', hwlt⟩).2.map PAction.emit := by
        rw [hdr2]
        exact List.mem_append_right _ (List.mem_cons_self _ _)
      exact waitAll_not_mem_map_emit _ _ this

theorem join_tails_empty {ε : Type} {joinerId : Nat} {pre post : List ε}
    {workers : List (Nat × List ε)} {ts : List (PTask ε)} {tr : List ε}
    (h : Reach (joinTasks joinerId pre post workers) ts tr) :
    ∀ (h0 : 0 < ts.length), (ts.get ⟨0, h0⟩).prog <:+ post.map PAction.emit →
      ∀ i (hi : i < ts.length), 0 < i → (ts.get ⟨i, hi⟩).prog = [] := by
  induction h with
  | refl =>
    intro h0 hsuf i hi hipos
    exfalso
    have hlenle := hsuf.length_le
    rw [joinTasks_get_zero] at hlenle
    simp at hlenle
    omega
  | stepEmit hr hs ih => exact join_tails_empty_step (traceOK_reach hr) ih hs
  | stepTau hr hs ih => exact join_tails_empty_step (traceOK_reach hr) ih hs

theorem join_done {ε : Type} {joinerId : Nat} {pre post : List ε}
    {workers : List (Nat × List ε)} {e : ε}
    (he_pre : e ∉ pre) (he_workers : ∀ w ∈ workers, e ∉ w.2)
    {ts : List (PTask ε)} {tr : List ε}
    (h : Reach (joinTasks joinerId pre post workers) ts tr) :
    e ∈ tr → (∀ w ∈ workers, ∀ d ∈ w.2, d ∈ tr) ∧ (∀ x ∈ pre, x ∈ tr) := by
  induction h with
  | refl =>
    intro he
    simp at he
  | stepTau hr hs ih => exact ih
  | stepEmit hr hs ih =>
    rename_i ts1 tr1 ts1' x
    intro he
    rcases List.mem_append.mp he with he1 | he2
    · obtain ⟨hw, hp⟩ := ih he1
      exact ⟨fun w hwin d hd => List.mem_append_left _ (hw w hwin d hd),
             fun y hy => List.mem_append_left _ (hp y hy)⟩
    · have hex : e = x := by simpa using he2
      subst hex
      obtain ⟨hlen, hpt⟩ := traceOK_reach hr
      have hjtlen := joinTasks_length joinerId pre post workers
      cases hs with
      | emit i e' rest heq =>
        have h0ts : 0 < ts1.length := i.pos
        have hi0 : i.val = 0 := by
          by_contra hne
          obtain ⟨j', hjv⟩ : ∃ j', i.val = j' + 1 := ⟨i.val - 1, by omega⟩
          have hilt : j' + 1 < ts1.length := by omega
          have hj2 : j' + 1 < (joinTasks joinerId pre post workers).length := by omega
          have hwlt : j' < workers.length := by omega
          obtain ⟨hid2, dropped2, hdr2, hmem2⟩ := hpt (j' + 1) hilt hj2
          rw [joinTasks_get_succ _ _ _ _ _ hj2 hwlt] at hdr2
          dsimp only at hdr2
          have hieq : i = ⟨j' + 1, hilt⟩ := Fin.ext hjv
          rw [hieq] at heq
          rw [heq] at hdr2
          have hmm : PAction.emit e ∈ (workers.get ⟨j', hwlt⟩).2.map PAction.emit := by
            rw [hdr2]
            exact List.mem_append_right _ (List.mem_cons_self _ _)
          have : e ∈ (workers.get ⟨j', hwlt⟩).2 := by
            simpa using hmm
          exact he_workers _ (List.get_mem workers j' hwlt) this
        have hieq : i = ⟨0, h0ts⟩ := Fin.ext hi0
        have heq0 : (ts1.get ⟨0, h0ts⟩).prog = PAction.emit e :: rest := by
          rw [← hieq]; exact heq
        have h02 : 0 < (joinTasks joinerId pre post workers).length := by omega
        obtain ⟨hid, dropped, hdr, hmem⟩ := hpt 0 h0ts h02
        rw [joinTasks_get_zero, heq0] at hdr
        dsimp only at hdr
        have hsuffix1 : PAction.emit e :: rest <:+
            pre.map PAction.emit ++ PAction.waitAll (workers.map (fun w => w.1)) ::
              post.map PAction.emit := ⟨dropped, hdr.symm⟩
        have hsuffix2 : PAction.waitAll (workers.map (fun w => w.1)) :: post.map PAction.emit <:+
            pre.map PAction.emit ++ PAction.waitAll (workers.map (fun w => w.1)) ::
              post.map PAction.emit := List.suffix_append _ _
        have hcur : PAction.emit e :: rest <:+ post.map PAction.emit := by
          rcases List.suffix_or_suffix_of_suffix hsuffix1 hsuffix2 with hA | hB
          · rcases suffix_cons_elim hA with heqq | hok
            · simp at heqq
            · exact hok
          · rcases suffix_cons_elim hB with heqq | hsufrest
            · simp at heqq
            · exfalso
              obtain ⟨mid, hmid⟩ := hsufrest
              have hdr' : pre.map PAction.emit ++
                  (PAction.waitAll (workers.map (fun w => w.1)) :: post.map PAction.emit) =
                  (dropped ++ PAction.emit e :: mid) ++
                    (PAction.waitAll (workers.map (fun w => w.1)) :: post.map PAction.emit) := by
                rw [hdr, ← hmid]
                simp
              have hpre : pre.map PAction.emit = dropped ++ PAction.emit e :: mid :=
                List.append_cancel_right hdr'
              have : PAction.emit e ∈ pre.map PAction.emit := by
                rw [hpre]
                exact List.mem_append_right _ (List.mem_cons_self _ _)
              exact he_pre (by simpa using this)
        have htails := join_tails_empty hr h0ts (by rw [heq0]; exact hcur)
        constructor
        · intro w hwin d hd
          obtain ⟨⟨k, hk⟩, rfl⟩ := List.mem_iff_get.mp hwin
          have hklt : k + 1 < ts1.length := by omega
          have hk2 : k + 1 < (joinTasks joinerId pre post workers).length := by omega
          obtain ⟨hid2, dropped2, hdr2, hmem2⟩ := hpt (k + 1) hklt hk2
          rw [joinTasks_get_succ _ _ _ _ _ hk2 hk] at hdr2
          dsimp only at hdr2
          have hempty := htails (k + 1) hklt (by omega)
          rw [hempty, List.append_nil] at hdr2
          have : d ∈ tr1 := hmem2 d (by rw [← hdr2]; exact List.mem_map_of_mem _ hd)
          exact List.mem_append_left _ this
        · intro y hy
          obtain ⟨d2, hd2⟩ := hcur
          have hdr' : (pre.map PAction.emit ++
              PAction.waitAll (workers.map (fun w => w.1)) :: d2) ++
                (PAction.emit e :: rest) = dropped ++ (PAction.emit e :: rest) := by
            rw [← hdr, ← hd2]
            simp
          have hpre : pre.map PAction.emit ++
              PAction.waitAll (workers.map (fun w => w.1)) :: d2 = dropped :=
            List.append_cancel_right hdr'
          have : y ∈ tr1 := hmem y (by
            rw [← hpre]
            exact List.mem_append_left _ (List.mem_map_of_mem _ hy))
          exact List.mem_append_left _ this

/-- The generic gate theorem of the task machine: along every reachable
trace of a joined-task system, an event the joiner emits after its
waitAll is preceded by every event of every worker and by every event
the joiner emitted before the waitAll, provided the gated event itself
occurs in no other program position. -/
theorem join_gate {ε : Type} {joinerId : Nat} {pre post : List ε}
    {workers : List (Nat × List ε)} {e : ε}
    (he_pre : e ∉ pre) (he_workers : ∀ w ∈ workers, e ∉ w.2)
    {ts : List (PTask ε)} {tr : List ε}
    (h : Reach (joinTasks joinerId pre post workers) ts tr) :
    (∀ w ∈ workers, ∀ d ∈ w.2, Precedes d e tr) ∧ (∀ x ∈ pre, Precedes x e tr) := by
  constructor
  · intro w hwin d hd n hen
    obtain ⟨ts', hr'⟩ := reach_take h n
    exact ((join_done he_pre he_workers hr' hen).1) w hwin d hd
  · intro y hy n hen
    obtain ⟨ts', hr'⟩ := reach_take h n
    exact ((join_done he_pre he_workers hr' hen).2) y hy

theorem wordToHex_length (w : Nat) : (Sha256.wordToHex w).length = 8 := by
  simp [Sha256.wordToHex]

theorem hexDigitChar_isHex : ∀ n, n < 16 → isHexDigitChar (Sha256.hexDigitChar n) = true := by
  decide

theorem wordToHex_isHex (w : Nat) : ∀ c ∈ Sha256.wordToHex w, isHexDigitChar c = true := by
  intro c hc
  simp [Sha256.wordToHex] at hc
  obtain ⟨i, hi, rfl⟩ := hc
  exact hexDigitChar_isHex _ (Nat.mod_lt _ (by omega))

theorem sha256Hex_length (s : String) : (sha256Hex s).length = 64 := by
  simp [sha256Hex, Sha256.digestToHex, String.length, wordToHex_length]

theorem sha256Hex_isHex (s : String) : ∀ c ∈ (sha256Hex s).data, isHexDigitChar c = true := by
  intro c hc
  simp only [sha256Hex, Sha256.digestToHex] at hc
  rcases List.mem_append.mp hc with h | h₇
  rcases List.mem_append.mp h with h | h₆
  rcases List.mem_append.mp h with h | h₅
  rcases List.mem_append.mp h with h | h₄
  rcases List.mem_append.mp h with h | h₃
  rcases List.mem_append.mp h with h | h₂
  rcases List.mem_append.mp h with h₀ | h₁
  · exact wordToHex_isHex _ c h₀
  · exact wordToHex_isHex _ c h₁
  · exact wordToHex_isHex _ c h₂
  · exact wordToHex_isHex _ c h₃
  · exact wordToHex_isHex _ c h₄
  · exact wordToHex_isHex _ c h₅
  · exact wordToHex_isHex _ c h₆
  · exact wordToHex_isHex _ c h₇

/-- C4: the key-derivation function is deterministic and total (it is a
pure function of its arguments); for every path string, deriving the
key outside production mode returns the path unchanged, and deriving it
in production mode returns the hex-encoded SHA-256 digest of the path,
a string of exactly 64 hexadecimal characters, the same on every call
with the same input. -/
theorem claim_C4_key_derivation (mode name : String) :
    (mode ≠ "production" → getTemplateHash mode name = name) ∧
    getTemplateHash ("production") name = sha256Hex name ∧
    (getTemplateHash ("production") name).length = 64 ∧
    (∀ c ∈ (getTemplateHash ("production") name).data, isHexDigitChar c = true) := by
  refine ⟨fun h => by simp [getTemplateHash, h], ?_, ?_, ?_⟩
  · simp [getTemplateHash]
  · simp [getTemplateHash, sha256Hex_length]
  · simp only [getTemplateHash, ne_eq, not_true_eq_false, if_neg, ite_false]
    exact sha256Hex_isHex name

/-- Witness for C4 at a concrete input: a development-mode key is the
path itself. -/
theorem claim_C4_key_derivation_witness :
    getTemplateHash ("development") ("a/b.twig") = "a/b.twig" :=
  (claim_C4_key_derivation ("development") ("a/b.twig")).1 (by decide)

theorem foldl_push_eq_append_map {α β : Type} (f : α → β) :
    ∀ (l : List α) (acc : List β),
      l.foldl (fun acc n => acc ++ [f n]) acc = acc ++ l.map f := by
  intro l
  induction l with
  | nil => intro acc; simp
  | cons a l ih =>
    intro acc
    simp only [List.foldl_cons, List.map_cons, ih]
    simp

theorem precompileParts_shape (environmentModulePath precompiledTemplate key : String)
    (names : List String) :
    precompileParts environmentModulePath precompiledTemplate key names =
      [envRequirePart environmentModulePath, templatesModulePart precompiledTemplate] ++
        names.map (fun n => requirePart (slash n)) ++
        [registerPart key, renderTemplatePart key] := by
  simp only [precompileParts, foldl_push_eq_append_map]
  simp

/-- C1: in precompile mode, for a template whose Dependency Visitor
discovers N referenced templates, the generated module string is the
newline join of exactly these parts in this order: the require of the
configured environment module path, the isolated-scope evaluation of
the compiled code fragment, one dependency require per discovered name
in visitor-discovery order (hence N of them, all preceding the
registration), the registration call under the template key, and the
exported render function, making N + 4 parts in total. -/
theorem claim_C1_precompile_module_structure {τ μ : Type} (env : TwingEnvironmentModel τ μ)
    (mode resourcePath environmentModulePath source : String) (st : EnvState)
    (tok : τ) (nm : μ) (names : List String)
    (htok : env.tokenize (sourceContextFor mode resourcePath source) = .ok tok)
    (hparse : env.parse tok = .ok nm)
    (hnames : env.getTemplateNames nm = .ok names) :
    (precompileBranch env mode resourcePath environmentModulePath source st).callback =
      .ok (String.intercalate ("\n")
        (precompileParts environmentModulePath (env.compile nm)
          (getTemplateHash mode resourcePath) names)) ∧
    precompileParts environmentModulePath (env.compile nm)
        (getTemplateHash mode resourcePath) names =
      [envRequirePart environmentModulePath, templatesModulePart (env.compile nm)] ++
        names.map (fun n => requirePart (slash n)) ++
        [registerPart (getTemplateHash mode resourcePath),
         renderTemplatePart (getTemplateHash mode resourcePath)] ∧
    (precompileParts environmentModulePath (env.compile nm)
        (getTemplateHash mode resourcePath) names).length = names.length + 4 := by
  refine ⟨?_, precompileParts_shape _ _ _ _, ?_⟩
  · simp only [precompileBranch, htok, hparse, hnames]
  · rw [precompileParts_shape]
    simp only [List.length_append, List.length_map, List.length_cons, List.length_nil]
    omega

/-- Witness for C1 at a concrete run: two discovered dependencies give
a five-part module with both requires between the compiled fragment and
the registration. -/
theorem claim_C1_precompile_module_structure_witness :
    (precompileBranch (stubEnv ["./dep1.twig", "./dep2.twig"] ("") []) ("development")
        ("a.twig") ("env.js") ("SRC") initState).callback =
      .ok (String.intercalate ("\n")
        (precompileParts ("env.js") ("COMPILED") (getTemplateHash ("development") ("a.twig"))
          ["./dep1.twig", "./dep2.twig"])) ∧
    precompileParts ("env.js") ("COMPILED") (getTemplateHash ("development") ("a.twig"))
        ["./dep1.twig", "./dep2.twig"] =
      [envRequirePart ("env.js"), templatesModulePart ("COMPILED")] ++
        (["./dep1.twig", "./dep2.twig"].map (fun n => requirePart (slash n))) ++
        [registerPart (getTemplateHash ("development") ("a.twig")),
         renderTemplatePart (getTemplateHash ("development") ("a.twig"))] ∧
    (precompileParts ("env.js") ("COMPILED") (getTemplateHash ("development") ("a.twig"))
        ["./dep1.twig", "./dep2.twig"]).length = 6 :=
  claim_C1_precompile_module_structure (stubEnv ["./dep1.twig", "./dep2.twig"] ("") [])
    ("development") ("a.twig") ("env.js") ("SRC") initState () () ["./dep1.twig", "./dep2.twig"]
    rfl rfl rfl

/-- C5: mode selection is decided solely by the presence of the
renderContext option: with renderContext absent the invocation is
exactly the precompile branch with the environment dependency
prepended, with renderContext present, even an empty mapping, it is
exactly the render branch with the environment dependency prepended;
every successful render-mode module is the single exported serialized
string, and every successful precompile-mode module is the joined parts
list. -/
theorem claim_C5_mode_selection {τ μ : Type} (env : TwingEnvironmentModel τ μ)
    (mode resourcePath environmentModulePath source : String) (st : EnvState) :
    (loaderMain env mode resourcePath environmentModulePath none source st =
      ⟨(precompileBranch env mode resourcePath environmentModulePath source st).callback,
       slash environmentModulePath ::
         (precompileBranch env mode resourcePath environmentModulePath source st).dependencies,
       (precompileBranch env mode resourcePath environmentModulePath source st).env⟩) ∧
    (∀ ctx : RenderContext,
      loaderMain env mode resourcePath environmentModulePath (some ctx) source st =
        ⟨(renderBranch env resourcePath source ctx st).callback,
         slash environmentModulePath ::
           (renderBranch env resourcePath source ctx st).dependencies,
         (renderBranch env resourcePath source ctx st).env⟩) ∧
    (∀ ctx : RenderContext, ∀ r : String,
      (loaderMain env mode resourcePath environmentModulePath (some ctx) source st).callback =
          .ok r →
        ∃ rendered, r = renderModuleText rendered) ∧
    (∀ r : String,
      (loaderMain env mode resourcePath environmentModulePath none source st).callback =
          .ok r →
        ∃ compiled names, r = String.intercalate ("\n")
          (precompileParts environmentModulePath compiled
            (getTemplateHash mode resourcePath) names)) := by
  refine ⟨rfl, fun _ => rfl, ?_, ?_⟩
  · intro ctx r hr
    have hr' : (renderBranch env resourcePath source ctx st).callback = .ok r := hr
    simp only [renderBranch] at hr'
    rcases hres : (env.render resourcePath ctx).2 with e | rt
    · rw [hres] at hr'
      cases hr'
    · rw [hres] at hr'
      rcases hfo : firstObligationError
          ((env.render resourcePath ctx).1.map
            (fun nf => (renderChainFor resourcePath source st.loader).resolve nf.1 nf.2)) with
        _ | e2
      · rw [hfo] at hr'
        exact ⟨rt, (Except.ok.injEq _ _ ▸ hr' : _).symm⟩
      · rw [hfo] at hr'
        cases hr'
  · intro r hr
    have hr' : (precompileBranch env mode resourcePath environmentModulePath source st).callback =
        .ok r := hr
    simp only [precompileBranch] at hr'
    rcases htok : env.tokenize (sourceContextFor mode resourcePath source) with e | tok
    · simp only [htok] at hr'
      cases hr'
    · simp only [htok] at hr'
      rcases hparse : env.parse tok with e | nm
      · simp only [hparse] at hr'
        cases hr'
      · simp only [hparse] at hr'
        rcases hnames : env.getTemplateNames nm with e | names
        · simp only [hnames] at hr'
          cases hr'
        · simp only [hnames] at hr'
          exact ⟨env.compile nm, names, (Except.ok.inj hr').symm⟩

/-- Witness for C5 at a concrete run, exercising in particular the
empty render context, which still selects the render branch. -/
theorem claim_C5_mode_selection_witness :
    (loaderMain (stubEnv [] ("hello") []) ("development") ("a.twig") ("env.js")
        (some []) ("SRC") initState =
      ⟨(renderBranch (stubEnv [] ("hello") []) ("a.twig") ("SRC") [] initState).callback,
       slash ("env.js") ::
         (renderBranch (stubEnv [] ("hello") []) ("a.twig") ("SRC") [] initState).dependencies,
       (renderBranch (stubEnv [] ("hello") []) ("a.twig") ("SRC") [] initState).env⟩) ∧
    (∃ rendered, renderModuleText ("hello") = renderModuleText rendered) :=
  ⟨(claim_C5_mode_selection (stubEnv [] ("hello") []) ("development") ("a.twig") ("env.js")
      ("SRC") initState).2.1 [],
   (claim_C5_mode_selection (stubEnv [] ("hello") []) ("development") ("a.twig") ("env.js")
      ("SRC") initState).2.2.1 [] (renderModuleText ("hello")) rfl⟩

/-- C10: a render-mode invocation replaces the shared Environment
loader with the override chain and adds a template-event listener, and
neither mutation is undone on any path: whatever the render and the
dependency obligations do, the final Environment state holds the new
chain (the previous loader is not restored) and one more subscribed
listener than before. -/
theorem claim_C10_render_mutations_persist {τ μ : Type} (env : TwingEnvironmentModel τ μ)
    (mode resourcePath environmentModulePath source : String) (ctx : RenderContext)
    (st : EnvState) :
    (loaderMain env mode resourcePath environmentModulePath (some ctx) source st).env.loader =
      renderChainFor resourcePath source st.loader ∧
    (loaderMain env mode resourcePath environmentModulePath
        (some ctx) source st).env.templateListenerCount = st.templateListenerCount + 1 := by
  constructor <;>
  · simp only [loaderMain, renderBranch]
    rcases hres : (env.render resourcePath ctx).2 with e | rt
    · simp only [hres]
    · simp only [hres]
      rcases hfo : firstObligationError
          ((env.render resourcePath ctx).1.map
            (fun nf => (renderChainFor resourcePath source st.loader).resolve nf.1 nf.2)) with
        _ | e2
      · simp only [hfo]
      · simp only [hfo]

/-- C8 (amended): when tokenize or parse fails, the callback delivers
that failure, no module text is produced, and the only dependency
reported is the environment module path declared before parsing; no
template dependency is reported. -/
theorem claim_C8_parse_failure_reporting {τ μ : Type} (env : TwingEnvironmentModel τ μ)
    (mode resourcePath environmentModulePath source : String) (st : EnvState) (e : TwingError)
    (hfail : env.tokenize (sourceContextFor mode resourcePath source) = .error e ∨
      ∃ tok, env.tokenize (sourceContextFor mode resourcePath source) = .ok tok ∧
        env.parse tok = .error e) :
    (loaderMain env mode resourcePath environmentModulePath none source st).callback =
      .error e ∧
    (loaderMain env mode resourcePath environmentModulePath none source st).dependencies =
      [slash environmentModulePath] := by
  rcases hfail with h | ⟨tok, h1, h2⟩
  · constructor <;> simp [loaderMain, precompileBranch, h]
  · constructor <;> simp [loaderMain, precompileBranch, h1, h2]

/-- Counterexample to C8 as stated: at a concrete invocation whose
template text fails to tokenize, the failure is delivered and no module
text is returned, yet the dependency declarations reported to the host
are not zero: the environment module path was declared before parsing
(src/index.ts line 65). -/
theorem claim_C8_counterexample :
    (loaderMain failTokenizeEnv ("development") ("tpl.twig") ("env.js") none
        ("\x7b% if") initState).callback = .error (.engineError ("unterminated tag")) ∧
    (loaderMain failTokenizeEnv ("development") ("tpl.twig") ("env.js") none
        ("\x7b% if") initState).dependencies = [slash ("env.js")] ∧
    (loaderMain failTokenizeEnv ("development") ("tpl.twig") ("env.js") none
        ("\x7b% if") initState).dependencies ≠ [] :=
  ⟨rfl, rfl, List.cons_ne_nil _ _⟩

/-- Witness for the amended C8 at the same concrete invocation. -/
theorem claim_C8_parse_failure_reporting_witness :
    (loaderMain failTokenizeEnv ("development") ("tpl.twig") ("env.js") none
        ("\x7b% if") initState).callback = .error (.engineError ("unterminated tag")) ∧
    (loaderMain failTokenizeEnv ("development") ("tpl.twig") ("env.js") none
        ("\x7b% if") initState).dependencies = [slash ("env.js")] :=
  claim_C8_parse_failure_reporting failTokenizeEnv ("development") ("tpl.twig") ("env.js")
    ("\x7b% if") initState (.engineError ("unterminated tag")) (Or.inl rfl)

/-- C6: the override chain serves a stored name from its in-memory
entry with the resolved path rewritten to the requested name, without
consulting the fallback (the result is the same for every fallback);
any other name is forwarded to the fallback and its exact result,
success or error, is returned; in particular a render-mode lookup for
the current resource path always yields the in-flight source. -/
theorem claim_C6_source_override_loader (resourcePath source name : String) (f : TwingSource) :
    (∀ fallback : TwingLoader,
      (renderChainFor resourcePath source fallback).getSourceContext resourcePath f =
        .ok ⟨source, resourcePath, resourcePath⟩) ∧
    (name ≠ resourcePath →
      ∀ fallback : TwingLoader,
        (renderChainFor resourcePath source fallback).getSourceContext name f =
          fallback.getSourceContext name f) ∧
    (∀ templates : List (String × String), ∀ code : String,
      lookupTemplate templates name = some code →
      ∀ fallback : TwingLoader,
        (twingLoaderChain [pathSupportingArrayLoader templates,
            fallback]).getSourceContext name f =
          .ok ⟨code, name, name⟩) := by
  refine ⟨?_, ?_, ?_⟩
  · intro fallback
    simp [renderChainFor, twingLoaderChain, chainLookup, pathSupportingArrayLoader,
      twingLoaderArray, lookupTemplate]
  · intro hne fallback
    simp [renderChainFor, twingLoaderChain, chainLookup, pathSupportingArrayLoader,
      twingLoaderArray, lookupTemplate, Ne.symm hne]
  · intro templates code hcode fallback
    simp [twingLoaderChain, chainLookup, pathSupportingArrayLoader,
      twingLoaderArray, hcode]

/-- Witness for C6 at concrete inputs: the current resource path is
served from memory even though the fallback also fails on it, and an
unknown name is answered exactly as the fallback answers it. -/
theorem claim_C6_source_override_loader_witness :
    (renderChainFor ("a.twig") ("SRC") nullLoader).getSourceContext ("a.twig")
        ⟨"", "", ""⟩ = .ok ⟨"SRC", "a.twig", "a.twig"⟩ ∧
    (renderChainFor ("a.twig") ("SRC") nullLoader).getSourceContext ("other.twig")
        ⟨"", "", ""⟩ = nullLoader.getSourceContext ("other.twig") ⟨"", "", ""⟩ :=
  ⟨(claim_C6_source_override_loader ("a.twig") ("SRC") ("other.twig") ⟨"", "", ""⟩).1
      nullLoader,
   (claim_C6_source_override_loader ("a.twig") ("SRC") ("other.twig") ⟨"", "", ""⟩).2.1
      (by decide) nullLoader⟩

theorem hexCharVal_hexDigitChar : ∀ n, n < 16 → hexCharVal (Sha256.hexDigitChar n) = n := by
  decide

theorem decode_plain (c : Char) (rest : List Char) (h1 : c ≠ '"') (h2 : c ≠ '\\') :
    decodeLiteralChars (c :: rest) = (decodeLiteralChars rest).map (fun l => c :: l) := by
  rw [decodeLiteralChars.eq_def]
  simp [h1, h2]

theorem decode_esc_quote (rest : List Char) :
    decodeLiteralChars ('\\' :: '"' :: rest) = (decodeLiteralChars rest).map (fun l => '"' :: l) := by
  rw [decodeLiteralChars.eq_def]
  simp +decide

theorem decode_esc_backslash (rest : List Char) :
    decodeLiteralChars ('\\' :: '\\' :: rest) =
      (decodeLiteralChars rest).map (fun l => '\\' :: l) := by
  rw [decodeLiteralChars.eq_def]
  simp +decide

theorem decode_esc_b (rest : List Char) :
    decodeLiteralChars ('\\' :: 'b' :: rest) =
      (decodeLiteralChars rest).map (fun l => '\x08' :: l) := by
  rw [decodeLiteralChars.eq_def]
  simp +decide

theorem decode_esc_t (rest : List Char) :
    decodeLiteralChars ('\\' :: 't' :: rest) =
      (decodeLiteralChars rest).map (fun l => '\x09' :: l) := by
  rw [decodeLiteralChars.eq_def]
  simp +decide

theorem decode_esc_n (rest : List Char) :
    decodeLiteralChars ('\\' :: 'n' :: rest) =
      (decodeLiteralChars rest).map (fun l => '\x0a' :: l) := by
  rw [decodeLiteralChars.eq_def]
  simp +decide

theorem decode_esc_f (rest : List Char) :
    decodeLiteralChars ('\\' :: 'f' :: rest) =
      (decodeLiteralChars rest).map (fun l => '\x0c' :: l) := by
  rw [decodeLiteralChars.eq_def]
  simp +decide

theorem decode_esc_r (rest : List Char) :
    decodeLiteralChars ('\\' :: 'r' :: rest) =
      (decodeLiteralChars rest).map (fun l => '\x0d' :: l) := by
  rw [decodeLiteralChars.eq_def]
  simp +decide

theorem decode_esc_u (c : Char) (rest : List Char) (hc : c.toNat < 32) :
    decodeLiteralChars ('\\' :: 'u' :: '0' :: '0' ::
        Sha256.hexDigitChar (c.toNat / 16) :: Sha256.hexDigitChar (c.toNat % 16) :: rest) =
      (decodeLiteralChars rest).map (fun l => c :: l) := by
  have h1 : isHexDigitChar (Sha256.hexDigitChar (c.toNat / 16)) = true :=
    hexDigitChar_isHex _ (by omega)
  have h2 : isHexDigitChar (Sha256.hexDigitChar (c.toNat % 16)) = true :=
    hexDigitChar_isHex _ (Nat.mod_lt _ (by omega))
  have hv1 : hexCharVal (Sha256.hexDigitChar (c.toNat / 16)) = c.toNat / 16 :=
    hexCharVal_hexDigitChar _ (by omega)
  have hv2 : hexCharVal (Sha256.hexDigitChar (c.toNat % 16)) = c.toNat % 16 :=
    hexCharVal_hexDigitChar _ (Nat.mod_lt _ (by omega))
  have hval : ((hexCharVal '0' * 16 + hexCharVal '0') * 16 +
      hexCharVal (Sha256.hexDigitChar (c.toNat / 16))) * 16 +
        hexCharVal (Sha256.hexDigitChar (c.toNat % 16)) = c.toNat := by
    rw [hv1, hv2]
    have h0 : hexCharVal '0' = 0 := by decide
    rw [h0]
    omega
  have h0 : isHexDigitChar '0' = true := by decide
  rw [decodeLiteralChars.eq_def]
  simp +decide [h0, h1, h2, hval, Char.ofNat_toNat]

theorem decode_encode_chars (l : List Char) :
    decodeLiteralChars (l.flatMap jsonEscapeChar ++ ['"']) = some l := by
  induction l with
  | nil => simp [decodeLiteralChars]
  | cons c l ih =>
    have hstep : (c :: l).flatMap jsonEscapeChar ++ ['"'] =
        jsonEscapeChar c ++ (l.flatMap jsonEscapeChar ++ ['"']) := by
      simp
    rw [hstep]
    by_cases h1 : c = '"'
    · subst h1
      rw [show jsonEscapeChar '"' = ['\\', '"'] from rfl]
      rw [List.cons_append, List.cons_append, List.nil_append, decode_esc_quote, ih]
      rfl
    · by_cases h2 : c = '\\'
      · subst h2
        rw [show jsonEscapeChar '\\' = ['\\', '\\'] from by simp [jsonEscapeChar]]
        rw [List.cons_append, List.cons_append, List.nil_append, decode_esc_backslash, ih]
        rfl
      · by_cases h3 : c = '\x08'
        · subst h3
          rw [show jsonEscapeChar '\x08' = ['\\', 'b'] from by simp [jsonEscapeChar]]
          rw [List.cons_append, List.cons_append, List.nil_append, decode_esc_b, ih]
          rfl
        · by_cases h4 : c = '\x09'
          · subst h4
            rw [show jsonEscapeChar '\x09' = ['\\', 't'] from by simp [jsonEscapeChar]]
            rw [List.cons_append, List.cons_append, List.nil_append, decode_esc_t, ih]
            rfl
          · by_cases h5 : c = '\x0a'
            · subst h5
              rw [show jsonEscapeChar '\x0a' = ['\\', 'n'] from by simp [jsonEscapeChar]]
              rw [List.cons_append, List.cons_append, List.nil_append, decode_esc_n, ih]
              rfl
            · by_cases h6 : c = '\x0c'
              · subst h6
                rw [show jsonEscapeChar '\x0c' = ['\\', 'f'] from by simp [jsonEscapeChar]]
                rw [List.cons_append, List.cons_append, List.nil_append, decode_esc_f, ih]
                rfl
              · by_cases h7 : c = '\x0d'
                · subst h7
                  rw [show jsonEscapeChar '\x0d' = ['\\', 'r'] from by simp [jsonEscapeChar]]
                  rw [List.cons_append, List.cons_append, List.nil_append, decode_esc_r, ih]
                  rfl
                · by_cases h8 : c.toNat < 32
                  · rw [show jsonEscapeChar c = ['\\', 'u', '0', '0',
                        Sha256.hexDigitChar (c.toNat / 16), Sha256.hexDigitChar (c.toNat % 16)]
                      from by simp [jsonEscapeChar, h1, h2, h3, h4, h5, h6, h7, h8]]
                    simp only [List.cons_append, List.nil_append]
                    rw [decode_esc_u c _ h8, ih]
                    rfl
                  · rw [show jsonEscapeChar c = [c]
                      from by simp [jsonEscapeChar, h1, h2, h3, h4, h5, h6, h7, h8]]
                    rw [List.cons_append, List.nil_append, decode_plain c _ h1 h2, ih]
                    rfl

/-- C7: the render-mode module exports the rendered string through a
string-literal-safe encoding: the emitted statement is exactly the
serialized literal between the fixed export frame, and evaluating that
literal as a JavaScript string (the decoder) returns the rendered
string unchanged, for every rendered string including quotes, newlines,
control characters and Unicode. -/
theorem claim_C7_render_roundtrip (rendered : String) :
    renderModuleText rendered =
      "module.exports = " ++ jsonStringifyString rendered ++ ";" ∧
    decodeStringLiteral (jsonStringifyString rendered) = some rendered := by
  refine ⟨rfl, ?_⟩
  have hred : decodeStringLiteral (jsonStringifyString rendered) =
      (decodeLiteralChars (rendered.data.flatMap jsonEscapeChar ++ ['"'])).map String.mk := rfl
  rw [hred, decode_encode_chars]
  rfl

theorem dropPrefixChars_append (p l : List Char) : dropPrefixChars p (p ++ l) = some l := by
  induction p with
  | nil => simp [dropPrefixChars]
  | cons a p ih => simpa [dropPrefixChars] using ih

theorem takeBeforeQuote_append (l suffix : List Char) (hq : '\x27' ∉ l) :
    takeBeforeQuote (l ++ '\x27' :: suffix) = some l := by
  induction l with
  | nil => simp [takeBeforeQuote]
  | cons a l ih =>
    have ha : a ≠ '\x27' := fun h => hq (h ▸ List.mem_cons_self _ _)
    have ih' := ih (fun h => hq (List.mem_cons_of_mem _ h))
    simp [takeBeforeQuote, ha, ih']

set_option maxRecDepth 8192 in
/-- C9: the single key computed for an invocation is used identically
in all three places it appears: as the name of the TwingSource handed
to tokenize, as the registry key read back out of the emitted
registration statement, and as the lookup name read back out of the
emitted render function, so the render function always looks up exactly
the key under which the factory was registered.  Keys containing a
single quote, which would break the quoting itself, are excluded. -/
theorem claim_C9_key_self_consistency (mode resourcePath source : String)
    (hq : '\x27' ∉ (getTemplateHash mode resourcePath).data) :
    (sourceContextFor mode resourcePath source).name = getTemplateHash mode resourcePath ∧
    extractRegisterKey (registerPart (getTemplateHash mode resourcePath)) =
      some (getTemplateHash mode resourcePath) ∧
    extractRenderLookupName (renderTemplatePart (getTemplateHash mode resourcePath)) =
      some (getTemplateHash mode resourcePath) := by
  refine ⟨rfl, ?_, ?_⟩
  · have hdata : (registerPart (getTemplateHash mode resourcePath)).data =
        ("env.registerTemplatesModule(templatesModule, \x27").data ++
          ((getTemplateHash mode resourcePath).data ++ '\x27' :: [')', ';']) := by
      have htail : ("\x27);").data = '\x27' :: [')', ';'] := rfl
      simp [registerPart, String.data_append, htail]
    have h1 : dropPrefixChars ("env.registerTemplatesModule(templatesModule, \x27").data
        (registerPart (getTemplateHash mode resourcePath)).data =
          some ((getTemplateHash mode resourcePath).data ++ '\x27' :: [')', ';']) := by
      rw [hdata]
      exact dropPrefixChars_append _ _
    have h2 : takeBeforeQuote
        ((getTemplateHash mode resourcePath).data ++ '\x27' :: [')', ';']) =
          some ((getTemplateHash mode resourcePath).data) :=
      takeBeforeQuote_append _ _ hq
    simp [extractRegisterKey, h1, h2]
  · have htail : ("\x27;\n                      env.emit(\x27template\x27, name);\n                      const template = env.loadedTemplates.get(name);\n                      return template.render(context);\n                    \x7d;\n\n                    module.exports = renderTemplate;\n                ").data =
        '\x27' :: (";\n                      env.emit(\x27template\x27, name);\n                      const template = env.loadedTemplates.get(name);\n                      return template.render(context);\n                    \x7d;\n\n                    module.exports = renderTemplate;\n                ").data := rfl
    have hdata : (renderTemplatePart (getTemplateHash mode resourcePath)).data =
        ("\n                    const renderTemplate = (context = \x7b\x7d) => \x7b\n                      const name = \x27").data ++
          ((getTemplateHash mode resourcePath).data ++
            '\x27' :: (";\n                      env.emit(\x27template\x27, name);\n                      const template = env.loadedTemplates.get(name);\n                      return template.render(context);\n                    \x7d;\n\n                    module.exports = renderTemplate;\n                ").data) := by
      simp [renderTemplatePart, String.data_append, htail]
    have h1 : dropPrefixChars
        ("\n                    const renderTemplate = (context = \x7b\x7d) => \x7b\n                      const name = \x27").data
        (renderTemplatePart (getTemplateHash mode resourcePath)).data =
          some ((getTemplateHash mode resourcePath).data ++
            '\x27' :: (";\n                      env.emit(\x27template\x27, name);\n                      const template = env.loadedTemplates.get(name);\n                      return template.render(context);\n                    \x7d;\n\n                    module.exports = renderTemplate;\n                ").data) := by
      rw [hdata]
      exact dropPrefixChars_append _ _
    have h2 : takeBeforeQuote
        ((getTemplateHash mode resourcePath).data ++
          '\x27' :: (";\n                      env.emit(\x27template\x27, name);\n                      const template = env.loadedTemplates.get(name);\n                      return template.render(context);\n                    \x7d;\n\n                    module.exports = renderTemplate;\n                ").data) =
          some ((getTemplateHash mode resourcePath).data) :=
      takeBeforeQuote_append _ _ hq
    simp [extractRenderLookupName, h1, h2]

/-- Witness for C9 at a concrete development-mode invocation. -/
theorem claim_C9_key_self_consistency_witness :
    (sourceContextFor ("development") ("a/b.twig") ("SRC")).name =
      getTemplateHash ("development") ("a/b.twig") ∧
    extractRegisterKey (registerPart (getTemplateHash ("development") ("a/b.twig"))) =
      some (getTemplateHash ("development") ("a/b.twig")) ∧
    extractRenderLookupName (renderTemplatePart (getTemplateHash ("development") ("a/b.twig"))) =
      some (getTemplateHash ("development") ("a/b.twig")) :=
  claim_C9_key_self_consistency ("development") ("a/b.twig") ("SRC") (by decide)

/-- C3: in precompile mode the Dependency Visitor runs to completion
before any code generation occurs: in every schedule of the branch task
system, compilation and the emission of the module parts beyond the
initial environment require happen only after the visitor has delivered
its complete name list, because they live in the continuation awaiting
the visitor promise. -/
theorem claim_C3_visitor_completion_precedes_codegen
    {ts : List (PTask PrecompileEv)} {tr : List PrecompileEv}
    (h : Reach precompileTasks ts tr) :
    Precedes PrecompileEv.visitorDone PrecompileEv.compiled tr ∧
    Precedes PrecompileEv.visitorDone PrecompileEv.partsEmitted tr := by
  have h' : Reach (joinTasks 0 [PrecompileEv.envRequirePushed, PrecompileEv.parsed]
      [PrecompileEv.compiled, PrecompileEv.partsEmitted, PrecompileEv.callbackCalled]
      [(1, [PrecompileEv.visitorDone])]) ts tr := h
  have hpre1 : PrecompileEv.compiled ∉
      [PrecompileEv.envRequirePushed, PrecompileEv.parsed] := by decide
  have hw1 : ∀ w ∈ [((1 : Nat), [PrecompileEv.visitorDone])],
      PrecompileEv.compiled ∉ w.2 := by decide
  have hpre2 : PrecompileEv.partsEmitted ∉
      [PrecompileEv.envRequirePushed, PrecompileEv.parsed] := by decide
  have hw2 : ∀ w ∈ [((1 : Nat), [PrecompileEv.visitorDone])],
      PrecompileEv.partsEmitted ∉ w.2 := by decide
  have hg1 := join_gate hpre1 hw1 h'
  have hg2 := join_gate hpre2 hw2 h'
  constructor
  · exact hg1.1 _ (List.mem_cons_self _ _) _ (List.mem_cons_self _ _)
  · exact hg2.1 _ (List.mem_cons_self _ _) _ (List.mem_cons_self _ _)

/-- C2: in render mode the module string never reaches the success
callback before every resolve-and-report obligation collected by the
template notification handler has completed: in every schedule of the
branch task system, each obligation has reported its dependency, and
rendering has resolved, before the success callback event occurs,
because the callback lives after the explicit join over the collected
obligation promises. -/
theorem claim_C2_callback_after_dependency_joins (k : Nat)
    {ts : List (PTask RenderEv)} {tr : List RenderEv}
    (h : Reach (renderTasks k) ts tr) :
    (∀ i, i < k → Precedes (RenderEv.depAdded i) RenderEv.callbackSuccess tr) ∧
    Precedes RenderEv.renderResolved RenderEv.callbackSuccess tr := by
  have h' : Reach (joinTasks 0 [RenderEv.renderResolved] [RenderEv.callbackSuccess]
      ((List.range k).map
        (fun i => (i + 1, [RenderEv.resolveDone i, RenderEv.depAdded i])))) ts tr := h
  have hpre : RenderEv.callbackSuccess ∉ [RenderEv.renderResolved] := by decide
  have hw : ∀ w ∈ (List.range k).map
      (fun i => (i + 1, [RenderEv.resolveDone i, RenderEv.depAdded i])),
      RenderEv.callbackSuccess ∉ w.2 := by
    intro w hwin
    simp only [List.mem_map, List.mem_range] at hwin
    obtain ⟨j, hj, rfl⟩ := hwin
    simp
  have hg := join_gate hpre hw h'
  constructor
  · intro i hik
    refine hg.1 (i + 1, [RenderEv.resolveDone i, RenderEv.depAdded i]) ?_ _ ?_
    · exact List.mem_map_of_mem _ (List.mem_range.mpr hik)
    · simp
  · exact hg.2 _ (List.mem_cons_self _ _)

/-- Witness for C3: a complete concrete execution of the precompile
task system; in its trace the visitor completion precedes the
compilation event. -/
theorem claim_C3_visitor_completion_precedes_codegen_witness :
    Precedes PrecompileEv.visitorDone PrecompileEv.compiled
      [PrecompileEv.envRequirePushed, PrecompileEv.parsed, PrecompileEv.visitorDone,
       PrecompileEv.compiled, PrecompileEv.partsEmitted, PrecompileEv.callbackCalled] := by
  have h0 : Reach precompileTasks precompileTasks [] := Reach.refl
  have h1 := Reach.stepEmit h0
    (PStep.emit precompileTasks ⟨0, by decide⟩ PrecompileEv.envRequirePushed _ rfl)
  have h2 := Reach.stepEmit h1 (PStep.emit _ ⟨0, by decide⟩ PrecompileEv.parsed _ rfl)
  have h3 := Reach.stepEmit h2 (PStep.emit _ ⟨1, by decide⟩ PrecompileEv.visitorDone _ rfl)
  have h4 := Reach.stepTau h3 (PStep.wait _ ⟨0, by decide⟩ [1] _ rfl (by decide))
  have h5 := Reach.stepEmit h4 (PStep.emit _ ⟨0, by decide⟩ PrecompileEv.compiled _ rfl)
  have h6 := Reach.stepEmit h5 (PStep.emit _ ⟨0, by decide⟩ PrecompileEv.partsEmitted _ rfl)
  have h7 := Reach.stepEmit h6 (PStep.emit _ ⟨0, by decide⟩ PrecompileEv.callbackCalled _ rfl)
  exact (claim_C3_visitor_completion_precedes_codegen h7).1

/-- Witness for C2: a complete concrete execution of the render task
system with one obligation whose resolution finishes only after the
render promise resolved; the dependency report still precedes the
success callback. -/
theorem claim_C2_callback_after_dependency_joins_witness :
    Precedes (RenderEv.depAdded 0) RenderEv.callbackSuccess
      [RenderEv.resolveDone 0, RenderEv.renderResolved, RenderEv.depAdded 0,
       RenderEv.callbackSuccess] := by
  have h0 : Reach (renderTasks 1) (renderTasks 1) [] := Reach.refl
  have h1 := Reach.stepEmit h0
    (PStep.emit (renderTasks 1) ⟨1, by decide⟩ (RenderEv.resolveDone 0) _ rfl)
  have h2 := Reach.stepEmit h1 (PStep.emit _ ⟨0, by decide⟩ RenderEv.renderResolved _ rfl)
  have h3 := Reach.stepEmit h2 (PStep.emit _ ⟨1, by decide⟩ (RenderEv.depAdded 0) _ rfl)
  have h4 := Reach.stepTau h3 (PStep.wait _ ⟨0, by decide⟩ [1] _ rfl (by decide))
  have h5 := Reach.stepEmit h4 (PStep.emit _ ⟨0, by decide⟩ RenderEv.callbackSuccess _ rfl)
  exact (claim_C2_callback_after_dependency_joins 1 h5).1 0 (by decide)
